import Mathlib

/-!
Verification of the price-snapshot-service core against its specification.

The Go source is shallowly embedded:
* Go `error` values become the inductive `GoError`; a `nil` error is `none`
  in `Option GoError`.  The `errors.As` traversal used by
  `retry.IsRetryable` becomes structural recursion through wrappers.
* The retry loop (`pkg/retry/backoff.go`) becomes a fuel recursion: the
  `for attempt := 0; attempt <= cfg.MaxRetries` loop runs on
  `(MaxRetries + 1).toNat` units of fuel.  The `select` on
  `ctx.Done()` versus `time.After(backoff)` is modelled by an oracle
  `cancelled : Nat -> Bool` telling, for each attempt index `i >= 1`,
  whether the cancellation branch wins the wait before attempt `i`.
  The embedding also counts work-function invocations.
* Go `float64` arithmetic in `calculateBackoff` is modelled by exact
  rational arithmetic; `rand.Float64()` becomes a parameter in `[0,1)`.
* `time.Time`, `time.Duration` and `int64` counters are modelled by `Int`.
* `decimal.Decimal` prices are modelled by `Rat` (they are only carried,
  never computed on).
-/

/-- Embedding of Go `error` values as used by this repository:
`base` is a leaf error (`errors.New` / sentinel), `wrapped` is an error
produced with a `%w` verb whose `Unwrap` returns the inner error, and
`retryableError` is `*retry.RetryableError`, whose `Unwrap` returns the
wrapped cause. -/
inductive GoError : Type
  | base (msg : String)
  | wrapped (msg : String) (inner : GoError)
  | retryableError (inner : GoError)
deriving DecidableEq, Repr

/-- Sentinel `domain.ErrInvalidSymbol` from internal/domain (errors file). -/
def ErrInvalidSymbol : GoError := .base "invalid symbol format"

/-- Sentinel `domain.ErrSymbolNotFound`. -/
def ErrSymbolNotFound : GoError := .base "symbol not found"

/-- Sentinel `domain.ErrInternal`. -/
def ErrInternal : GoError := .base "internal server error"

namespace Retry

/-- `retry.IsRetryable`: `errors.As(err, &retryable)` succeeds exactly when
the error itself, or some error reachable through `Unwrap`, is a
`*RetryableError`.  Leaves stop the traversal. -/
def IsRetryable : GoError → Bool
  | .base _ => false
  | .wrapped _ inner => IsRetryable inner
  | .retryableError _ => true

/-- `retry.NewRetryableError`. -/
def NewRetryableError (e : GoError) : GoError := .retryableError e

/-- `retry.Config`.  `MaxRetries` is a Go `int` (so `Int` here); the
duration and float fields are modelled as exact rationals. -/
structure Config where
  MaxRetries : Int
  InitialBackoff : Rat
  MaxBackoff : Rat
  Multiplier : Rat
  Jitter : Rat
deriving DecidableEq, Repr

/-- `retry.DefaultConfig` (durations in nanoseconds, as Go stores them). -/
def DefaultConfig : Config :=
  { MaxRetries := 3
    InitialBackoff := 100 * 1000000
    MaxBackoff := 10 * 1000000000
    Multiplier := 2
    Jitter := 1/10 }

/-- Outcome of `retry.Do` / `retry.DoWithResult`: either a normal
`return lastErr` / `return nil` / `return err` (carrying the returned
error value), or the `return ctx.Err()` branch of the backoff `select`. -/
inductive DoResult : Type
  | done (e : Option GoError)
  | ctxCancelled
deriving DecidableEq, Repr

/-- Loop body of `retry.Do`, by fuel recursion.  Arguments mirror the Go
loop state: current `attempt`, remaining iterations
(`cfg.MaxRetries - attempt + 1`), `lastErr`, plus a count of work-function
invocations made so far.  `cancelled i` says whether the `ctx.Done()`
branch of the `select` wins the backoff wait before attempt `i`. -/
def doAux (cancelled : Nat → Bool) (fn : Nat → Option GoError) :
    Nat → Nat → Option GoError → Nat → DoResult × Nat
  | _, 0, lastErr, calls => (.done lastErr, calls)
  | attempt, rem + 1, _lastErr, calls =>
    if 0 < attempt ∧ cancelled attempt = true then (.ctxCancelled, calls)
    else
      match fn attempt with
      | none => (.done none, calls + 1)
      | some e =>
        if IsRetryable e then doAux cancelled fn (attempt + 1) rem (some e) (calls + 1)
        else (.done (some e), calls + 1)

/-- `retry.Do`.  The work function is given per-attempt behaviour
`fn : Nat → Option GoError`; the pair returned is (outcome, number of
invocations of `fn`). -/
def Do (cfg : Config) (cancelled : Nat → Bool) (fn : Nat → Option GoError) :
    DoResult × Nat :=
  doAux cancelled fn 0 (cfg.MaxRetries + 1).toNat none 0

/-- Loop body of `retry.DoWithResult`: as `doAux`, additionally threading
the `result` variable, which Go assigns on every call of `fn`, including
failing ones. -/
def DoWithResultAux {T : Type} (cancelled : Nat → Bool)
    (fn : Nat → T × Option GoError) :
    Nat → Nat → T → Option GoError → Nat → (T × DoResult) × Nat
  | _, 0, result, lastErr, calls => ((result, .done lastErr), calls)
  | attempt, rem + 1, result, _lastErr, calls =>
    if 0 < attempt ∧ cancelled attempt = true then ((result, .ctxCancelled), calls)
    else
      match fn attempt with
      | (r, none) => ((r, .done none), calls + 1)
      | (r, some e) =>
        if IsRetryable e then
          DoWithResultAux cancelled fn (attempt + 1) rem r (some e) (calls + 1)
        else ((r, .done (some e)), calls + 1)

/-- `retry.DoWithResult`.  `dflt` is the zero value of `T` given by
`var result T`. -/
def DoWithResult {T : Type} (cfg : Config) (cancelled : Nat → Bool)
    (dflt : T) (fn : Nat → T × Option GoError) : (T × DoResult) × Nat :=
  DoWithResultAux cancelled fn 0 (cfg.MaxRetries + 1).toNat dflt none 0

/-- The pre-jitter part of `calculateBackoff`:
`InitialBackoff * Multiplier^(attempt-1)`, capped at `MaxBackoff`. -/
def preJitterBackoff (cfg : Config) (attempt : Nat) : Rat :=
  let backoff := cfg.InitialBackoff * cfg.Multiplier ^ (attempt - 1)
  if backoff > cfg.MaxBackoff then cfg.MaxBackoff else backoff

/-- `calculateBackoff`.  `rnd` models the `rand.Float64()` sample in
`[0,1)`; the float arithmetic is modelled exactly over the rationals. -/
def calculateBackoff (cfg : Config) (attempt : Nat) (rnd : Rat) : Rat :=
  let backoff := preJitterBackoff cfg attempt
  let backoff :=
    if cfg.Jitter > 0 then backoff + backoff * cfg.Jitter * (rnd * 2 - 1)
    else backoff
  if backoff < 0 then cfg.InitialBackoff else backoff

end Retry

namespace Retry

/-- Helper: if every attempt fails with a retryable error and no wait is
cancelled, the loop consumes all its fuel and ends returning the error of
the last attempt, having called the work function once per fuel unit. -/
theorem doAux_allRetryable (cancelled : Nat → Bool) (fn : Nat → Option GoError)
    (e : Nat → GoError) (hc : ∀ k, cancelled k = false)
    (hfn : ∀ k, fn k = some (e k)) (hr : ∀ k, IsRetryable (e k) = true) :
    ∀ (rem attempt : Nat) (lastErr : Option GoError) (calls : Nat),
      doAux cancelled fn attempt (rem + 1) lastErr calls
        = (.done (some (e (attempt + rem))), calls + rem + 1) := by
  intro rem
  induction rem with
  | zero =>
    intro attempt lastErr calls
    simp [doAux, hc, hfn, hr]
  | succ rem ih =>
    intro attempt lastErr calls
    have h1 : attempt + (rem + 1) = (attempt + 1) + rem := by omega
    have h2 : calls + (rem + 1) + 1 = (calls + 1) + rem + 1 := by omega
    rw [h1, h2, ← ih (attempt + 1) (some (e attempt)) (calls + 1)]
    simp [doAux, hc, hfn, hr]

/-- Helper: the `DoWithResult` analogue of `doAux_allRetryable`; the
`result` variable ends as the value produced by the last attempt. -/
theorem DoWithResultAux_allRetryable {T : Type} (cancelled : Nat → Bool)
    (fn : Nat → T × Option GoError) (e : Nat → GoError) (res : Nat → T)
    (hc : ∀ k, cancelled k = false)
    (hfn : ∀ k, fn k = (res k, some (e k)))
    (hr : ∀ k, IsRetryable (e k) = true) :
    ∀ (rem attempt : Nat) (result : T) (lastErr : Option GoError) (calls : Nat),
      DoWithResultAux cancelled fn attempt (rem + 1) result lastErr calls
        = ((res (attempt + rem), .done (some (e (attempt + rem)))), calls + rem + 1) := by
  intro rem
  induction rem with
  | zero =>
    intro attempt result lastErr calls
    simp [DoWithResultAux, hc, hfn, hr]
  | succ rem ih =>
    intro attempt result lastErr calls
    have h1 : attempt + (rem + 1) = (attempt + 1) + rem := by omega
    have h2 : calls + (rem + 1) + 1 = (calls + 1) + rem + 1 := by omega
    rw [h1, h2, ← ih (attempt + 1) (res attempt) (some (e attempt)) (calls + 1)]
    simp [DoWithResultAux, hc, hfn, hr]

/-- Claim C1: with `MaxRetries = N` and a work function that fails with a
retryable error on every invocation (and no cancellation), `retry.Do` and
`retry.DoWithResult` invoke the work function exactly `N + 1` times and
return the retryable error observed on the last attempt — the error value
itself, not a synthetic one. -/
theorem claim_C1_retry_bound (cfg : Config) (N : Nat) (hN : cfg.MaxRetries = N)
    (e : Nat → GoError) (hr : ∀ k, IsRetryable (e k) = true)
    {T : Type} (dflt : T) (res : Nat → T) :
    Do cfg (fun _ => false) (fun k => some (e k)) = (.done (some (e N)), N + 1)
    ∧ DoWithResult cfg (fun _ => false) dflt (fun k => (res k, some (e k)))
        = ((res N, .done (some (e N))), N + 1) := by
  have hfuel : (cfg.MaxRetries + 1).toNat = N + 1 := by omega
  constructor
  · rw [Do, hfuel,
      doAux_allRetryable (fun _ => false) _ e (fun _ => rfl) (fun _ => rfl) hr N 0 none 0]
    simp
  · rw [DoWithResult, hfuel,
      DoWithResultAux_allRetryable (fun _ => false) _ e res (fun _ => rfl) (fun _ => rfl) hr
        N 0 dflt none 0]
    simp

/-- A concrete configuration with `MaxRetries = n`, used to instantiate
the retry theorems at concrete inputs. -/
def testCfg (n : Int) : Config :=
  { MaxRetries := n, InitialBackoff := 1, MaxBackoff := 2, Multiplier := 2, Jitter := 0 }

/-- Witness for C1 at `N = 2` with a constant retryable error. -/
theorem claim_C1_retry_bound_witness :
    Do (testCfg 2) (fun _ => false) (fun _ => some (.retryableError (.base "boom")))
      = (.done (some (.retryableError (.base "boom"))), 3)
    ∧ DoWithResult (testCfg 2) (fun _ => false) (0 : Nat)
        (fun k => (k, some (.retryableError (.base "boom"))))
      = ((2, .done (some (.retryableError (.base "boom")))), 3) :=
  claim_C1_retry_bound (testCfg 2) 2 rfl (fun _ => .retryableError (.base "boom"))
    (fun _ => rfl) 0 (fun k => k)

/-- Helper: if attempts `attempt, …, attempt+j-1` fail retryably, no wait
is cancelled, and attempt `attempt+j` fails with a non-retryable error
`t`, the loop returns `t` itself after exactly `j + 1` further calls. -/
theorem doAux_terminal (cancelled : Nat → Bool) (fn : Nat → Option GoError)
    (hc : ∀ k, cancelled k = false) (t : GoError) (ht : IsRetryable t = false) :
    ∀ (j rem attempt : Nat) (lastErr : Option GoError) (calls : Nat),
      j < rem →
      (∀ k, k < j → ∃ er, fn (attempt + k) = some er ∧ IsRetryable er = true) →
      fn (attempt + j) = some t →
      doAux cancelled fn attempt rem lastErr calls = (.done (some t), calls + j + 1) := by
  intro j
  induction j with
  | zero =>
    intro rem attempt lastErr calls hrem _hpre hterm
    match rem, hrem with
    | r + 1, _ =>
      rw [Nat.add_zero] at hterm
      simp [doAux, hc, hterm, ht]
  | succ j ih =>
    intro rem attempt lastErr calls hrem hpre hterm
    match rem, hrem with
    | r + 1, hrem =>
      obtain ⟨er, hfn0, hr0⟩ := hpre 0 (Nat.succ_pos j)
      rw [Nat.add_zero] at hfn0
      have hpre' : ∀ k, k < j → ∃ er, fn (attempt + 1 + k) = some er ∧ IsRetryable er = true := by
        intro k hk
        have := hpre (k + 1) (by omega)
        rwa [show attempt + (k + 1) = attempt + 1 + k by omega] at this
      have hterm' : fn (attempt + 1 + j) = some t := by
        rwa [show attempt + (j + 1) = attempt + 1 + j by omega] at hterm
      have := ih r (attempt + 1) (some er) (calls + 1) (by omega) hpre' hterm'
      simp only [doAux, hc, hfn0, hr0]
      simp only [this]
      simp
      omega

/-- Claim C2: if attempts `0..j-1` fail with retryable errors and attempt
`j ≤ MaxRetries` fails with a non-retryable (terminal) error `t`,
`retry.Do` stops at attempt `j`, returns `t` verbatim, and makes exactly
`j + 1` work-function invocations; with `j = 0` this is one invocation
regardless of `MaxRetries`. -/
theorem claim_C2_terminal_short_circuit (cfg : Config) (N j : Nat)
    (hN : cfg.MaxRetries = N) (hj : j ≤ N) (fn : Nat → Option GoError)
    (t : GoError) (ht : IsRetryable t = false)
    (hpre : ∀ k, k < j → ∃ er, fn k = some er ∧ IsRetryable er = true)
    (hterm : fn j = some t) :
    Do cfg (fun _ => false) fn = (.done (some t), j + 1) := by
  have hfuel : (cfg.MaxRetries + 1).toNat = N + 1 := by omega
  rw [Do, hfuel]
  have := doAux_terminal (fun _ => false) fn (fun _ => rfl) t ht j (N + 1) 0 none 0
    (by omega) (by simpa using hpre) (by simpa using hterm)
  simpa using this

/-- Witness for C2: a terminal error on the first attempt with
`MaxRetries = 5` gives exactly one invocation. -/
theorem claim_C2_terminal_short_circuit_witness :
    Do (testCfg 5) (fun _ => false) (fun _ => some (.base "bad request"))
      = (.done (some (.base "bad request")), 1) :=
  claim_C2_terminal_short_circuit (testCfg 5) 5 0 rfl (by omega)
    (fun _ => some (.base "bad request")) (.base "bad request") rfl
    (fun k hk => absurd hk (by omega)) rfl

/-- Helper: if attempts before `i` fail retryably, no earlier wait is
cancelled, and the cancellation branch wins the wait before attempt
`i ≥ 1`, the loop returns the cancellation outcome after exactly `d`
further calls, where `attempt + d = i`. -/
theorem doAux_cancelAt (cancelled : Nat → Bool) (fn : Nat → Option GoError)
    (i : Nat) (hi : 1 ≤ i) (hci : cancelled i = true)
    (hc : ∀ k, k < i → cancelled k = false)
    (hpre : ∀ k, k < i → ∃ er, fn k = some er ∧ IsRetryable er = true) :
    ∀ (d attempt rem : Nat) (lastErr : Option GoError) (calls : Nat),
      attempt + d = i → d < rem →
      doAux cancelled fn attempt rem lastErr calls = (.ctxCancelled, calls + d) := by
  intro d
  induction d with
  | zero =>
    intro attempt rem lastErr calls hd hrem
    match rem, hrem with
    | r + 1, _ =>
      have hatt : attempt = i := by omega
      subst hatt
      rw [doAux, if_pos ⟨by omega, hci⟩]
      simp
  | succ d ih =>
    intro attempt rem lastErr calls hd hrem
    match rem, hrem with
    | r + 1, hrem =>
      have hlt : attempt < i := by omega
      obtain ⟨er, hfn0, hr0⟩ := hpre attempt hlt
      have hstep : doAux cancelled fn attempt (r + 1) lastErr calls
          = doAux cancelled fn (attempt + 1) r (some er) (calls + 1) := by
        rw [doAux]
        have hcond : ¬(0 < attempt ∧ cancelled attempt = true) := by
          rintro ⟨_, habs⟩
          rw [hc attempt hlt] at habs
          exact Bool.false_ne_true habs
        rw [if_neg hcond, hfn0]
        simp [hr0]
      rw [hstep, ih (attempt + 1) r (some er) (calls + 1) (by omega) (by omega)]
      simp
      omega

/-- Helper: `DoWithResult` analogue of `doAux_cancelAt`; the carried
result value is existentially quantified, the outcome and the call count
are exact. -/
theorem DoWithResultAux_cancelAt {T : Type} (cancelled : Nat → Bool)
    (fn : Nat → T × Option GoError) (i : Nat) (hi : 1 ≤ i)
    (hci : cancelled i = true) (hc : ∀ k, k < i → cancelled k = false)
    (hpre : ∀ k, k < i → ∃ (r : T) (er : GoError),
      fn k = (r, some er) ∧ IsRetryable er = true) :
    ∀ (d attempt rem : Nat) (result : T) (lastErr : Option GoError) (calls : Nat),
      attempt + d = i → d < rem →
      ∃ r, DoWithResultAux cancelled fn attempt rem result lastErr calls
        = ((r, .ctxCancelled), calls + d) := by
  intro d
  induction d with
  | zero =>
    intro attempt rem result lastErr calls hd hrem
    match rem, hrem with
    | r + 1, _ =>
      have hatt : attempt = i := by omega
      subst hatt
      refine ⟨result, ?_⟩
      rw [DoWithResultAux, if_pos ⟨by omega, hci⟩]
      simp
  | succ d ih =>
    intro attempt rem result lastErr calls hd hrem
    match rem, hrem with
    | r + 1, hrem =>
      have hlt : attempt < i := by omega
      obtain ⟨rv, er, hfn0, hr0⟩ := hpre attempt hlt
      have hstep : DoWithResultAux cancelled fn attempt (r + 1) result lastErr calls
          = DoWithResultAux cancelled fn (attempt + 1) r rv (some er) (calls + 1) := by
        rw [DoWithResultAux]
        have hcond : ¬(0 < attempt ∧ cancelled attempt = true) := by
          rintro ⟨_, habs⟩
          rw [hc attempt hlt] at habs
          exact Bool.false_ne_true habs
        rw [if_neg hcond, hfn0]
        simp [hr0]
      obtain ⟨rfin, hfin⟩ := ih (attempt + 1) r rv (some er) (calls + 1) (by omega) (by omega)
      refine ⟨rfin, ?_⟩
      rw [hstep, hfin]
      simp
      omega

/-- Claim C4: if the governing context's cancellation wins the backoff
wait before attempt `i` (with `1 ≤ i ≤ MaxRetries`, all earlier attempts
failing retryably and no earlier wait cancelled), `retry.Do` and
`retry.DoWithResult` return the cancellation outcome with exactly `i`
work-function invocations — the work function is never invoked again. -/
theorem claim_C4_cancellation_precedence (cfg : Config) (N i : Nat)
    (hN : cfg.MaxRetries = N) (hi : 1 ≤ i) (hiN : i ≤ N)
    (cancelled : Nat → Bool) (hci : cancelled i = true)
    (hc : ∀ k, k < i → cancelled k = false)
    (fn : Nat → Option GoError)
    (hpre : ∀ k, k < i → ∃ er, fn k = some er ∧ IsRetryable er = true)
    {T : Type} (dflt : T) (fnR : Nat → T × Option GoError)
    (hpreR : ∀ k, k < i → ∃ (r : T) (er : GoError),
      fnR k = (r, some er) ∧ IsRetryable er = true) :
    Do cfg cancelled fn = (.ctxCancelled, i)
    ∧ ∃ r, DoWithResult cfg cancelled dflt fnR = ((r, .ctxCancelled), i) := by
  have hfuel : (cfg.MaxRetries + 1).toNat = N + 1 := by omega
  constructor
  · rw [Do, hfuel]
    have := doAux_cancelAt cancelled fn i hi hci hc hpre i 0 (N + 1) none 0
      (by omega) (by omega)
    simpa using this
  · rw [DoWithResult, hfuel]
    obtain ⟨r, hr⟩ := DoWithResultAux_cancelAt cancelled fnR i hi hci hc hpreR
      i 0 (N + 1) dflt none 0 (by omega) (by omega)
    exact ⟨r, by simpa using hr⟩

/-- Witness for C4: cancellation during the wait before attempt 1 with
`MaxRetries = 3` gives exactly one invocation and the cancellation
outcome. -/
theorem claim_C4_cancellation_precedence_witness :
    Do (testCfg 3) (fun k => decide (k = 1))
        (fun _ => some (.retryableError (.base "transient")))
      = (.ctxCancelled, 1)
    ∧ ∃ r, DoWithResult (testCfg 3) (fun k => decide (k = 1)) (0 : Nat)
        (fun _ => (7, some (.retryableError (.base "transient"))))
      = ((r, .ctxCancelled), 1) :=
  claim_C4_cancellation_precedence (testCfg 3) 3 1 rfl (by omega) (by omega)
    (fun k => decide (k = 1)) (by decide)
    (fun k hk => by interval_cases k; simp)
    (fun _ => some (.retryableError (.base "transient")))
    (fun k hk => ⟨.retryableError (.base "transient"), by simp [IsRetryable]⟩)
    0 (fun _ => (7, some (.retryableError (.base "transient"))))
    (fun k hk => ⟨7, .retryableError (.base "transient"), by simp [IsRetryable]⟩)

/-- The random perturbation that `calculateBackoff` adds to the pre-jitter
backoff: `backoff * Jitter * (rand*2 - 1)` when `Jitter > 0`, nothing
otherwise. -/
def jitterOffset (cfg : Config) (attempt : Nat) (rnd : Rat) : Rat :=
  if cfg.Jitter > 0 then preJitterBackoff cfg attempt * cfg.Jitter * (rnd * 2 - 1)
  else 0

/-- Claim C3: for a retry configuration with nonnegative durations and
multiplier and `Jitter ∈ [0,1]`, and any attempt `i ≥ 1`, the pre-jitter
backoff equals `min(InitialBackoff * Multiplier^(i-1), MaxBackoff)` (so it
exceeds neither bound), the jitter perturbation lies in
`[-Jitter*backoff, +Jitter*backoff]` for every random sample in `[0,1)`,
and a negative final value is replaced by `InitialBackoff`. -/
theorem claim_C3_backoff_bounds (cfg : Config) (i : Nat) (_hi : 1 ≤ i)
    (hInit : 0 ≤ cfg.InitialBackoff) (hMax : 0 ≤ cfg.MaxBackoff)
    (hMult : 0 ≤ cfg.Multiplier) (hJ0 : 0 ≤ cfg.Jitter) (_hJ1 : cfg.Jitter ≤ 1)
    (rnd : Rat) (hr0 : 0 ≤ rnd) (hr1 : rnd < 1) :
    preJitterBackoff cfg i
        = min (cfg.InitialBackoff * cfg.Multiplier ^ (i - 1)) cfg.MaxBackoff
    ∧ preJitterBackoff cfg i ≤ cfg.MaxBackoff
    ∧ preJitterBackoff cfg i ≤ cfg.InitialBackoff * cfg.Multiplier ^ (i - 1)
    ∧ |jitterOffset cfg i rnd| ≤ cfg.Jitter * preJitterBackoff cfg i
    ∧ calculateBackoff cfg i rnd
        = (if preJitterBackoff cfg i + jitterOffset cfg i rnd < 0
           then cfg.InitialBackoff
           else preJitterBackoff cfg i + jitterOffset cfg i rnd) := by
  have hb0nn : 0 ≤ cfg.InitialBackoff * cfg.Multiplier ^ (i - 1) :=
    mul_nonneg hInit (pow_nonneg hMult _)
  have hpre_eq : preJitterBackoff cfg i
      = min (cfg.InitialBackoff * cfg.Multiplier ^ (i - 1)) cfg.MaxBackoff := by
    rw [preJitterBackoff]
    split_ifs with h
    · exact (min_eq_right h.le).symm
    · exact (min_eq_left (not_lt.mp h)).symm
  have hprenn : 0 ≤ preJitterBackoff cfg i := by
    rw [hpre_eq]; exact le_min hb0nn hMax
  refine ⟨hpre_eq, ?_, ?_, ?_, ?_⟩
  · rw [hpre_eq]; exact min_le_right _ _
  · rw [hpre_eq]; exact min_le_left _ _
  · rw [jitterOffset]
    split_ifs with hJ
    · rw [abs_mul, abs_mul, abs_of_nonneg hprenn, abs_of_nonneg hJ0]
      have habs : |rnd * 2 - 1| ≤ 1 := abs_le.mpr ⟨by linarith, by linarith⟩
      calc preJitterBackoff cfg i * cfg.Jitter * |rnd * 2 - 1|
          ≤ preJitterBackoff cfg i * cfg.Jitter * 1 :=
            mul_le_mul_of_nonneg_left habs (mul_nonneg hprenn hJ0)
        _ = cfg.Jitter * preJitterBackoff cfg i := by ring
    · simpa using mul_nonneg hJ0 hprenn
  · by_cases hJ : cfg.Jitter > 0
    · simp only [calculateBackoff, jitterOffset, if_pos hJ]
    · simp only [calculateBackoff, jitterOffset, if_neg hJ, add_zero]

/-- Witness for C3 at the repository's `DefaultConfig`, attempt 3,
random sample `1/2`. -/
theorem claim_C3_backoff_bounds_witness :
    preJitterBackoff DefaultConfig 3
        = min (DefaultConfig.InitialBackoff * DefaultConfig.Multiplier ^ (3 - 1))
            DefaultConfig.MaxBackoff
    ∧ preJitterBackoff DefaultConfig 3 ≤ DefaultConfig.MaxBackoff
    ∧ preJitterBackoff DefaultConfig 3
        ≤ DefaultConfig.InitialBackoff * DefaultConfig.Multiplier ^ (3 - 1)
    ∧ |jitterOffset DefaultConfig 3 (1/2)|
        ≤ DefaultConfig.Jitter * preJitterBackoff DefaultConfig 3
    ∧ calculateBackoff DefaultConfig 3 (1/2)
        = (if preJitterBackoff DefaultConfig 3 + jitterOffset DefaultConfig 3 (1/2) < 0
           then DefaultConfig.InitialBackoff
           else preJitterBackoff DefaultConfig 3 + jitterOffset DefaultConfig 3 (1/2)) :=
  claim_C3_backoff_bounds DefaultConfig 3 (by norm_num)
    (by norm_num [DefaultConfig]) (by norm_num [DefaultConfig])
    (by norm_num [DefaultConfig]) (by norm_num [DefaultConfig])
    (by norm_num [DefaultConfig]) (1/2) (by norm_num) (by norm_num)

end Retry

/-- The mutable fields of `services.MetricsService` (snapshot_service.go,
metrics part).  `lastPollTime` is the `*time.Time` pointer (`none` =
`nil`); times and durations are modelled as `Int` (nanoseconds), the
`int64` counters as `Int`. -/
structure MetricsState where
  lastPollTime : Option Int
  lastPollDuration : Int
  pollSuccessCount : Int
  pollErrorCount : Int
  totalPollTime : Int
deriving DecidableEq, Repr

/-- The metrics fields as initialised by `NewMetricsService` (Go zero
values; `lastPollTime` starts as `nil`). -/
def NewMetricsService : MetricsState :=
  { lastPollTime := none, lastPollDuration := 0, pollSuccessCount := 0,
    pollErrorCount := 0, totalPollTime := 0 }

/-- `MetricsService.RecordPollSuccess`; `now` is the value of
`time.Now()` at the moment of the call. -/
def RecordPollSuccess (now duration : Int) (m : MetricsState) : MetricsState :=
  { m with lastPollTime := some now, lastPollDuration := duration,
           pollSuccessCount := m.pollSuccessCount + 1,
           totalPollTime := m.totalPollTime + duration }

/-- `MetricsService.RecordPollError`; `now` is the value of `time.Now()`
at the moment of the call. -/
def RecordPollError (now duration : Int) (m : MetricsState) : MetricsState :=
  { m with lastPollTime := some now, lastPollDuration := duration,
           pollErrorCount := m.pollErrorCount + 1,
           totalPollTime := m.totalPollTime + duration }

/-- One recorded outcome: which mutator was called, at which moment, with
which duration argument. -/
inductive PollRecord : Type
  | success (t d : Int)
  | failure (t d : Int)
deriving DecidableEq, Repr

/-- The call moment of a recorded outcome. -/
def PollRecord.time : PollRecord → Int
  | .success t _ => t
  | .failure t _ => t

/-- The duration argument of a recorded outcome. -/
def PollRecord.dur : PollRecord → Int
  | .success _ d => d
  | .failure _ d => d

/-- Whether the recorded outcome was a `RecordPollSuccess` call. -/
def PollRecord.isSuccess : PollRecord → Bool
  | .success _ _ => true
  | .failure _ _ => false

/-- Dispatch one recorded outcome to the matching mutator. -/
def applyPollRecord (m : MetricsState) : PollRecord → MetricsState
  | .success t d => RecordPollSuccess t d m
  | .failure t d => RecordPollError t d m

/-- Apply a whole call sequence, oldest first. -/
def applyPollRecords (m : MetricsState) (evs : List PollRecord) : MetricsState :=
  evs.foldl applyPollRecord m

/-- Helper: each recorded outcome adds exactly one to the sum of the two
counters, whatever the starting state. -/
theorem applyPollRecords_count (evs : List PollRecord) :
    ∀ m : MetricsState,
      (applyPollRecords m evs).pollSuccessCount + (applyPollRecords m evs).pollErrorCount
        = m.pollSuccessCount + m.pollErrorCount + evs.length := by
  induction evs with
  | nil => intro m; simp [applyPollRecords]
  | cons ev evs ih =>
    intro m
    have step := ih (applyPollRecord m ev)
    rw [applyPollRecords] at step ⊢
    rw [List.foldl_cons, step]
    cases ev <;>
      simp [applyPollRecord, RecordPollSuccess, RecordPollError] <;> ring

/-- Claim C5: every `RecordPollSuccess`/`RecordPollError` call
unconditionally sets the last-poll time to the moment of the call, sets
the last-poll duration, and increments exactly its matching counter, so
that over every call sequence the two counters sum to the number of calls
and neither counter ever decreases. -/
theorem claim_C5_metrics_invariant :
    (∀ (ev : PollRecord) (m : MetricsState),
      (applyPollRecord m ev).lastPollTime = some ev.time
      ∧ (applyPollRecord m ev).lastPollDuration = ev.dur
      ∧ (applyPollRecord m ev).pollSuccessCount
          = m.pollSuccessCount + (if ev.isSuccess then 1 else 0)
      ∧ (applyPollRecord m ev).pollErrorCount
          = m.pollErrorCount + (if ev.isSuccess then 0 else 1)
      ∧ m.pollSuccessCount ≤ (applyPollRecord m ev).pollSuccessCount
      ∧ m.pollErrorCount ≤ (applyPollRecord m ev).pollErrorCount)
    ∧ (∀ evs : List PollRecord,
        (applyPollRecords NewMetricsService evs).pollSuccessCount
          + (applyPollRecords NewMetricsService evs).pollErrorCount = evs.length) := by
  constructor
  · intro ev m
    cases ev <;>
      simp [applyPollRecord, RecordPollSuccess, RecordPollError,
        PollRecord.time, PollRecord.dur, PollRecord.isSuccess]
  · intro evs
    have := applyPollRecords_count evs NewMetricsService
    simpa [NewMetricsService] using this


namespace Domain

/-- `domain.Symbol` (times as `Int` nanoseconds). -/
structure Symbol where
  ID : Int
  Name : String
  Active : Bool
  CreatedAt : Int
  UpdatedAt : Int
deriving DecidableEq, Repr

set_option linter.dupNamespace false in
/-- `domain.Price`: a quote from the exchange; the decimal price is
modelled as an exact rational. -/
structure Price where
  Symbol : String
  Price : Rat
deriving DecidableEq, Repr

/-- `domain.PriceSnapshot`. -/
structure PriceSnapshot where
  ID : Int
  SymbolID : Int
  Symbol : String
  Price : Rat
  Timestamp : Int
deriving DecidableEq, Repr

end Domain

/-- The collaborator behaviour visible to one `PollerService.PollPrices`
cycle: the result of `symbolRepo.ListActive`, of `exchange.GetPrices`
for a given name list, of `snapshotRepo.CreateBatch` for a given batch,
and the value of `time.Now().UTC()` taken when snapshots are built. -/
structure PollEnv where
  listActive : Except GoError (List Domain.Symbol)
  getPrices : List String → Except GoError (List Domain.Price)
  createBatch : List Domain.PriceSnapshot → Option GoError
  now : Int

/-- Which metrics mutator a cycle invoked (`RecordPollSuccess` or
`RecordPollError`); the duration argument is wall-clock time, outside the
embedding — the mutators themselves are verified separately. -/
inductive PollOutcome : Type
  | success
  | failure
deriving DecidableEq, Repr

/-- Observable effect of one `PollPrices` call: its returned error, the
metrics calls it made (in order), and the batch handed to
`CreateBatch` when storing happened. -/
structure PollResult where
  ret : Option GoError
  recorded : List PollOutcome
  stored : Option (List Domain.PriceSnapshot)
deriving DecidableEq, Repr

/-- The `symbolMap` of `PollPrices`: the Go map is built by inserting the
active symbols in slice order (a later duplicate name overwrites an
earlier one), then `symbolMap[name]` looks a name up.  This recursion
returns the last matching element, matching that insertion order. -/
def lookupSymbol : List Domain.Symbol → String → Option Domain.Symbol
  | [], _ => none
  | s :: rest, name =>
    match lookupSymbol rest name with
    | some r => some r
    | none => if s.Name = name then some s else none

/-- The snapshot-building loop of `PollPrices`: one `PriceSnapshot` per
returned price whose symbol is present in `symbolMap`, all stamped with
the same `now`. -/
def buildSnapshots (symbols : List Domain.Symbol) (prices : List Domain.Price)
    (now : Int) : List Domain.PriceSnapshot :=
  prices.filterMap (fun p =>
    (lookupSymbol symbols p.Symbol).map (fun sym =>
      { ID := 0, SymbolID := sym.ID, Symbol := p.Symbol, Price := p.Price,
        Timestamp := now }))

/-- `PollerService.PollPrices`, branch for branch: list-active failure
records a failed outcome and returns the error; an empty active list
returns `nil` recording nothing; a fetch failure records a failed outcome
and returns the error; an empty built batch records success and returns
`nil` without storing; otherwise the batch is stored, a store failure
recording failure, a store success recording success. -/
def PollPrices (env : PollEnv) : PollResult :=
  match env.listActive with
  | .error e => { ret := some e, recorded := [.failure], stored := none }
  | .ok symbols =>
    if symbols.length = 0 then { ret := none, recorded := [], stored := none }
    else
      match env.getPrices (symbols.map Domain.Symbol.Name) with
      | .error e => { ret := some e, recorded := [.failure], stored := none }
      | .ok prices =>
        let snapshots := buildSnapshots symbols prices env.now
        if snapshots.length = 0 then
          { ret := none, recorded := [.success], stored := none }
        else
          match env.createBatch snapshots with
          | some e => { ret := some e, recorded := [.failure], stored := none }
          | none => { ret := none, recorded := [.success], stored := some snapshots }

/-- Helper: a name is found in `symbolMap` exactly when some active
symbol bears it. -/
theorem lookupSymbol_isSome (symbols : List Domain.Symbol) (name : String) :
    (lookupSymbol symbols name).isSome = true
      ↔ name ∈ symbols.map Domain.Symbol.Name := by
  induction symbols with
  | nil => simp [lookupSymbol]
  | cons s rest ih =>
    rw [lookupSymbol]
    cases h : lookupSymbol rest name with
    | some r =>
      rw [h] at ih
      simp only [Option.isSome_some, true_iff] at ih
      simp [ih]
    | none =>
      rw [h] at ih
      simp only [Option.isSome_none, Bool.false_eq_true, false_iff] at ih
      by_cases hs : s.Name = name
      · simp [hs]
      · simp only [List.map_cons, List.mem_cons]
        constructor
        · intro hsome
          simp [hs] at hsome
        · intro hmem
          rcases hmem with hmem | hmem
          · exact absurd hmem.symm hs
          · exact absurd hmem ih

/-- Claim C6: a cycle whose `ListActive` succeeds with an empty list
returns `nil`, records no outcome, and stores nothing. -/
theorem claim_C6_empty_universe (env : PollEnv)
    (h : env.listActive = .ok []) :
    PollPrices env = { ret := none, recorded := [], stored := none } := by
  rw [PollPrices, h]
  simp

/-- A concrete environment with no active symbols. -/
def pollEnvEmpty : PollEnv :=
  { listActive := .ok [], getPrices := fun _ => .ok [],
    createBatch := fun _ => none, now := 0 }

/-- Witness for C6. -/
theorem claim_C6_empty_universe_witness :
    PollPrices pollEnvEmpty = { ret := none, recorded := [], stored := none } :=
  claim_C6_empty_universe pollEnvEmpty rfl

/-- Helper: the symbols of the built batch are exactly the symbols of the
returned quotes that appear in the active list, in quote order. -/
theorem buildSnapshots_symbols (symbols : List Domain.Symbol)
    (prices : List Domain.Price) (now : Int) :
    (buildSnapshots symbols prices now).map Domain.PriceSnapshot.Symbol
      = (prices.filter
          (fun p => decide (p.Symbol ∈ symbols.map Domain.Symbol.Name))).map
          Domain.Price.Symbol := by
  induction prices with
  | nil => simp [buildSnapshots]
  | cons p ps ih =>
    rw [buildSnapshots, List.filterMap_cons, List.filter_cons]
    cases h : lookupSymbol symbols p.Symbol with
    | none =>
      have hnot : ¬ p.Symbol ∈ symbols.map Domain.Symbol.Name := by
        rw [← lookupSymbol_isSome, h]
        simp
      simpa [hnot, buildSnapshots] using ih
    | some sym =>
      have hmem : p.Symbol ∈ symbols.map Domain.Symbol.Name := by
        rw [← lookupSymbol_isSome, h]
        rfl
      simpa [hmem, buildSnapshots] using ih

/-- Helper: every snapshot in the built batch carries the cycle's single
capture time. -/
theorem buildSnapshots_timestamp (symbols : List Domain.Symbol)
    (prices : List Domain.Price) (now : Int) :
    ∀ s ∈ buildSnapshots symbols prices now, s.Timestamp = now := by
  intro s hs
  rw [buildSnapshots, List.mem_filterMap] at hs
  obtain ⟨p, _, hp⟩ := hs
  cases h : lookupSymbol symbols p.Symbol with
  | none => rw [h] at hp; simp at hp
  | some sym =>
    rw [h] at hp
    have hp2 : ({ ID := 0, SymbolID := sym.ID, Symbol := p.Symbol, Price := p.Price, Timestamp := now } : Domain.PriceSnapshot) = s := by
      simpa using hp
    rw [← hp2]

/-- Claim C7: when listing and fetching both succeed, the built batch
contains snapshots exactly for the quote symbols present in the active
list (quotes for unknown symbols are dropped), every snapshot carries the
cycle's one capture time, and an empty resulting batch makes the cycle a
recorded success that stores nothing and returns `nil`. -/
theorem claim_C7_batch_build (env : PollEnv) (symbols : List Domain.Symbol)
    (prices : List Domain.Price)
    (hl : env.listActive = .ok symbols) (hne : symbols ≠ [])
    (hp : env.getPrices (symbols.map Domain.Symbol.Name) = .ok prices) :
    (buildSnapshots symbols prices env.now).map Domain.PriceSnapshot.Symbol
        = (prices.filter
            (fun p => decide (p.Symbol ∈ symbols.map Domain.Symbol.Name))).map
            Domain.Price.Symbol
    ∧ (∀ s ∈ buildSnapshots symbols prices env.now, s.Timestamp = env.now)
    ∧ (buildSnapshots symbols prices env.now = [] →
        PollPrices env = { ret := none, recorded := [.success], stored := none }) := by
  refine ⟨buildSnapshots_symbols symbols prices env.now,
    buildSnapshots_timestamp symbols prices env.now, ?_⟩
  intro hempty
  have hlen : ¬ symbols.length = 0 := by
    intro h0
    exact hne (List.length_eq_zero.mp h0)
  simp [PollPrices, hl, hp, hempty, hlen]

/-- A single tracked symbol, for concrete instantiation. -/
def btcSymbol : Domain.Symbol :=
  { ID := 1, Name := "BTCUSDT", Active := true, CreatedAt := 0, UpdatedAt := 0 }

/-- A returned quote whose symbol is not in the active list. -/
def ethQuote : Domain.Price := { Symbol := "ETHUSDT", Price := 3 }

/-- A concrete environment: one active symbol, one quote for a different
symbol (so the built batch is empty), storing always succeeds. -/
def pollEnvPartial : PollEnv :=
  { listActive := .ok [btcSymbol],
    getPrices := fun _ => .ok [ethQuote],
    createBatch := fun _ => none,
    now := 5 }

/-- Witness for C7, at an environment where the only quote is for a
deactivated symbol. -/
theorem claim_C7_batch_build_witness :
    (buildSnapshots [btcSymbol] [ethQuote] pollEnvPartial.now).map Domain.PriceSnapshot.Symbol
        = (([ethQuote]).filter
            (fun p => decide (p.Symbol ∈ ([btcSymbol]).map Domain.Symbol.Name))).map
            Domain.Price.Symbol
    ∧ (∀ s ∈ buildSnapshots [btcSymbol] [ethQuote] pollEnvPartial.now,
        s.Timestamp = pollEnvPartial.now)
    ∧ (buildSnapshots [btcSymbol] [ethQuote] pollEnvPartial.now = [] →
        PollPrices pollEnvPartial = { ret := none, recorded := [.success], stored := none }) :=
  claim_C7_batch_build pollEnvPartial [btcSymbol] [ethQuote] rfl (by simp) rfl

/-- Go `unicode.IsUpper`, on the Latin-1 range where this development
evaluates it.  Go's fast path for runes `<= MaxLatin1` consults the
Latin-1 properties table, whose uppercase letters are exactly `A`–`Z`
(65–90), `À`–`Ö` (0xC0–0xD6) and `Ø`–`Þ` (0xD8–0xDE).  Runes beyond
Latin-1 (binary search in the `Lu` table in Go) are out of the modelled
range and mapped to `false`; every theorem below applies the function to
Latin-1 runes only. -/
def goIsUpper (c : Char) : Bool :=
  if c.toNat ≤ 0xFF then
    (decide (65 ≤ c.toNat) && decide (c.toNat ≤ 90))
      || (decide (0xC0 ≤ c.toNat) && decide (c.toNat ≤ 0xD6))
      || (decide (0xD8 ≤ c.toNat) && decide (c.toNat ≤ 0xDE))
  else false

/-- Go `unicode.IsDigit`, on the same modelled range: for runes
`<= MaxLatin1` Go tests `0 <= r && r <= 9` directly; beyond Latin-1
(the `Nd` table in Go) the model returns `false`. -/
def goIsDigit (c : Char) : Bool :=
  if c.toNat ≤ 0xFF then decide (48 ≤ c.toNat) && decide (c.toNat ≤ 57)
  else false

/-- Number of bytes of the UTF-8 encoding of a rune; Go strings are
UTF-8, so `len(name)` is the sum of these over the string's runes. -/
def goUtf8Size (c : Char) : Nat :=
  if c.toNat ≤ 0x7F then 1
  else if c.toNat ≤ 0x7FF then 2
  else if c.toNat ≤ 0xFFFF then 3
  else 4

/-- Go `len(name)` for a string given by its rune list: its UTF-8 byte
length. -/
def utf8Len (name : List Char) : Nat := (name.map goUtf8Size).sum

/-- The `for _, r := range name` loop of `ValidateSymbolName`: the first
rune that is neither uppercase nor a digit returns `ErrInvalidSymbol`. -/
def checkRunes : List Char → Option GoError
  | [] => none
  | r :: rest =>
    if !goIsUpper r && !goIsDigit r then some ErrInvalidSymbol
    else checkRunes rest

/-- `domain.ValidateSymbolName`, with the string given as its rune list:
empty strings and byte lengths outside 2–20 are rejected, then every rune
must satisfy `unicode.IsUpper` or `unicode.IsDigit`. -/
def ValidateSymbolName (name : List Char) : Option GoError :=
  if name = [] then some ErrInvalidSymbol
  else if utf8Len name < 2 ∨ utf8Len name > 20 then some ErrInvalidSymbol
  else checkRunes name

/-- The claim's acceptance shape read over ASCII: between 2 and 20
characters, each an ASCII uppercase letter or ASCII digit. -/
def specUpperAlnumAscii (name : List Char) : Bool :=
  decide (2 ≤ name.length) && decide (name.length ≤ 20)
    && name.all (fun c =>
      (decide (65 ≤ c.toNat) && decide (c.toNat ≤ 90))
        || (decide (48 ≤ c.toNat) && decide (c.toNat ≤ 57)))

/-- The claim's acceptance shape read over Unicode: between 2 and 20
characters (counted as characters, not bytes), each an uppercase letter
or digit per Go's Unicode classes. -/
def specUpperAlnumChars (name : List Char) : Bool :=
  decide (2 ≤ name.length) && decide (name.length ≤ 20)
    && name.all (fun c => goIsUpper c || goIsDigit c)

/-- Helper: the rune loop accepts exactly when every rune is uppercase or
a digit. -/
theorem checkRunes_none_iff (name : List Char) :
    checkRunes name = none
      ↔ ∀ c ∈ name, (goIsUpper c || goIsDigit c) = true := by
  induction name with
  | nil => simp [checkRunes]
  | cons r rest ih =>
    cases hu : goIsUpper r <;> cases hd : goIsDigit r <;>
      simp [checkRunes, hu, hd, ih]

/-- Helper: `ValidateSymbolName` accepts exactly when the UTF-8 byte
length is between 2 and 20 and every rune is uppercase or a digit. -/
theorem ValidateSymbolName_none_iff (name : List Char) :
    ValidateSymbolName name = none
      ↔ (2 ≤ utf8Len name ∧ utf8Len name ≤ 20
          ∧ ∀ c ∈ name, (goIsUpper c || goIsDigit c) = true) := by
  rw [ValidateSymbolName]
  split_ifs with h1 h2
  · subst h1
    simp [utf8Len]
  · constructor
    · intro h
      exact absurd h (by simp)
    · rintro ⟨ha, hb, _⟩
      omega
  · rw [checkRunes_none_iff]
    constructor
    · intro h
      exact ⟨by omega, by omega, h⟩
    · rintro ⟨_, _, h⟩
      exact h

/-- Helper: ASCII runes occupy one byte each, so byte length equals
character count. -/
theorem utf8Len_ascii (name : List Char) (h : ∀ c ∈ name, c.toNat ≤ 0x7F) :
    utf8Len name = name.length := by
  induction name with
  | nil => rfl
  | cons c rest ih =>
    have hc : c.toNat ≤ 0x7F := h c (List.mem_cons_self c rest)
    have hrest := ih (fun x hx => h x (List.mem_cons_of_mem c hx))
    simp [utf8Len, goUtf8Size, hc] at hrest ⊢
    omega

/-- Helper: on ASCII runes the Go classes coincide with the ASCII
uppercase/digit ranges. -/
theorem goUpperDigit_ascii (c : Char) (h : c.toNat ≤ 0x7F) :
    (goIsUpper c || goIsDigit c)
      = ((decide (65 ≤ c.toNat) && decide (c.toNat ≤ 90))
          || (decide (48 ≤ c.toNat) && decide (c.toNat ≤ 57))) := by
  have h255 : c.toNat ≤ 0xFF := by omega
  rw [goIsUpper, goIsDigit, if_pos h255, if_pos h255]
  have hc0 : decide (0xC0 ≤ c.toNat) = false := by
    simp
    omega
  have hd8 : decide (0xD8 ≤ c.toNat) = false := by
    simp
    omega
  rw [hc0, hd8]
  simp

/-- Counterexample to claim C8 ("accepts iff uppercase alphanumeric,
2–20 characters"), under both readings of that shape.  Read over ASCII:
the code accepts the two-rune string `ÄÖ` (runes 0xC4, 0xD6 — Unicode
uppercase, hence `unicode.IsUpper`), yet the string is not ASCII
uppercase-alphanumeric.  Read over Unicode: the code rejects eleven `Ä`
runes (11 characters, within 2–20, all uppercase) because `len` counts
UTF-8 bytes, and 22 bytes exceed 20. -/
theorem claim_C8_counterexample :
    (ValidateSymbolName [Char.ofNat 0xC4, Char.ofNat 0xD6] = none
      ∧ specUpperAlnumAscii [Char.ofNat 0xC4, Char.ofNat 0xD6] = false)
    ∧ (ValidateSymbolName (List.replicate 11 (Char.ofNat 0xC4)) = some ErrInvalidSymbol
      ∧ specUpperAlnumChars (List.replicate 11 (Char.ofNat 0xC4)) = true) := by
  decide

/-- Claim C8 as amended: `ValidateSymbolName` accepts a (Latin-1) string
exactly when its UTF-8 byte length is between 2 and 20 and every rune is
uppercase or a digit per Go's Unicode classes; restricted to ASCII
strings this coincides with the claimed shape "2–20 characters, all
uppercase alphanumeric". -/
theorem claim_C8_validate_amended (name : List Char)
    (_hL : ∀ c ∈ name, c.toNat ≤ 0xFF) :
    (ValidateSymbolName name = none
      ↔ (2 ≤ utf8Len name ∧ utf8Len name ≤ 20
          ∧ ∀ c ∈ name, (goIsUpper c || goIsDigit c) = true))
    ∧ ((∀ c ∈ name, c.toNat ≤ 0x7F) →
        (ValidateSymbolName name = none ↔ specUpperAlnumAscii name = true)) := by
  refine ⟨ValidateSymbolName_none_iff name, ?_⟩
  intro hA
  rw [ValidateSymbolName_none_iff, utf8Len_ascii name hA, specUpperAlnumAscii]
  simp only [Bool.and_eq_true, List.all_eq_true, decide_eq_true_eq, and_assoc]
  constructor
  · rintro ⟨ha, hb, h⟩
    refine ⟨ha, hb, fun c hc => ?_⟩
    rw [← goUpperDigit_ascii c (hA c hc)]
    exact h c hc
  · rintro ⟨ha, hb, h⟩
    refine ⟨ha, hb, fun c hc => ?_⟩
    rw [goUpperDigit_ascii c (hA c hc)]
    exact h c hc

/-- Witness for the amended C8 at the ASCII string `BTCUSDT`. -/
theorem claim_C8_validate_amended_witness :
    ValidateSymbolName ['B', 'T', 'C', 'U', 'S', 'D', 'T'] = none :=
  ((claim_C8_validate_amended ['B', 'T', 'C', 'U', 'S', 'D', 'T']
    (by decide)).1).mpr (by decide)

/-- Collaborator behaviour visible to one
`SnapshotService.GetPriceHistory` call, keyed by the (already normalised)
symbol it queries: the result of `symbolRepo.Exists` and of
`snapshotRepo.GetHistory` as a function of the limit passed to it.
(The `strings.ToUpper(strings.TrimSpace(.))` normalisation happens before
either collaborator is consulted and is outside this claim.) -/
structure HistoryEnv where
  symbolExists : Except GoError Bool
  getHistory : Int → Except GoError (List Domain.PriceSnapshot)

/-- The limit validation of `GetPriceHistory`: `limit <= 0` becomes 100,
then `limit > 1000` becomes 1000. -/
def clampLimit (limit : Int) : Int :=
  let limit := if limit ≤ 0 then 100 else limit
  if limit > 1000 then 1000 else limit

/-- `SnapshotService.GetPriceHistory`.  The second component records the
limit passed to `snapshotRepo.GetHistory`, or `none` when the repository
was never queried.  Repository failures are masked as `ErrInternal`, an
untracked symbol returns `ErrSymbolNotFound`. -/
def GetPriceHistory (env : HistoryEnv) (limit : Int) :
    Except GoError (List Domain.PriceSnapshot) × Option Int :=
  let limit := clampLimit limit
  match env.symbolExists with
  | .error _ => (.error ErrInternal, none)
  | .ok false => (.error ErrSymbolNotFound, none)
  | .ok true =>
    match env.getHistory limit with
    | .error _ => (.error ErrInternal, some limit)
    | .ok history => (.ok history, some limit)

/-- Claim C10: `GetPriceHistory` clamps its limit before querying —
`limit <= 0` becomes 100, `limit > 1000` becomes 1000, anything in range
is kept — every query uses exactly the clamped limit, a tracked symbol is
always queried with it, and an untracked symbol yields
`ErrSymbolNotFound` with no history query at all. -/
theorem claim_C10_history_clamp (env : HistoryEnv) (limit : Int) :
    ((limit ≤ 0 → clampLimit limit = 100)
      ∧ (limit > 1000 → clampLimit limit = 1000)
      ∧ (0 < limit → limit ≤ 1000 → clampLimit limit = limit))
    ∧ (∀ l, (GetPriceHistory env limit).2 = some l → l = clampLimit limit)
    ∧ (env.symbolExists = .ok true →
        (GetPriceHistory env limit).2 = some (clampLimit limit))
    ∧ (env.symbolExists = .ok false →
        GetPriceHistory env limit = (.error ErrSymbolNotFound, none)) := by
  refine ⟨⟨?_, ?_, ?_⟩, ?_, ?_, ?_⟩
  · intro h
    simp only [clampLimit]
    split_ifs <;> omega
  · intro h
    simp only [clampLimit]
    split_ifs <;> omega
  · intro h1 h2
    simp only [clampLimit]
    split_ifs <;> omega
  · intro l hl
    cases h : env.symbolExists with
    | error e => simp [GetPriceHistory, h] at hl
    | ok b =>
      cases b with
      | false => simp [GetPriceHistory, h] at hl
      | true =>
        cases hg : env.getHistory (clampLimit limit) with
        | error e =>
          simp [GetPriceHistory, h, hg] at hl
          omega
        | ok history =>
          simp [GetPriceHistory, h, hg] at hl
          omega
  · intro h
    cases hg : env.getHistory (clampLimit limit) with
    | error e => simp [GetPriceHistory, h, hg]
    | ok history => simp [GetPriceHistory, h, hg]
  · intro h
    simp [GetPriceHistory, h]

/-- A concrete environment whose symbol is untracked. -/
def histEnvMissing : HistoryEnv :=
  { symbolExists := .ok false, getHistory := fun _ => .ok [] }

/-- Witness for C10: a negative limit clamps to 100, and with an
untracked symbol the call returns `ErrSymbolNotFound` without querying
history. -/
theorem claim_C10_history_clamp_witness :
    clampLimit (-5) = 100
    ∧ GetPriceHistory histEnvMissing (-5) = (.error ErrSymbolNotFound, none) :=
  ⟨(claim_C10_history_clamp histEnvMissing (-5)).1.1 (by norm_num),
    (claim_C10_history_clamp histEnvMissing (-5)).2.2.2 rfl⟩
